import Mathlib

/-!
Shallow embedding of `price_bot_amadeus.py`: a flight price alert bot that
scans a date window for flight offers, selects the cheapest offer, and
decides whether to send a price alert based on persisted state.

Prices are modelled as rationals (`ℚ`); the result of parsing an offer's
`price.total` string is an `Option ℚ` (`none` = the `float(...)` conversion
raised).  Dates are modelled as integer day ordinals.  The HTTP collaborators
are modelled by their results: the per-date candidate offer lists are inputs
to the selector.
-/

namespace PriceBot

/-! ### Configuration constants (lines 26-40 of the source) -/

def ORIGEN : String := "EZE"

def DESTINO : String := "MAD"

def SOLO_IDA : Bool := false

def NOCHES_MIN : ℕ := 7

def NOCHES_MAX : ℕ := 21

def PRECIO_OBJETIVO : ℚ := 600

def BAJA_MINIMA_PCT : ℚ := 8

def MAX_DIAS : ℕ := 20

/-! ### Offers and the cheapest-offer selection (`buscar_mejor_precio_amadeus`) -/

/-- An offer record as far as the bot inspects it: the result of attempting
`float(o["price"]["total"])` (`none` when the conversion raises), the
`_nights` tag, and the `_route_summary` tag. -/
structure Offer where
  total : Option ℚ
  nights : Option ℕ
  routeSummary : Option String
deriving DecidableEq

/-- `price_of` (source lines 168-172): parsed total price, or `+∞` when the
`float` conversion raises. -/
def price_of (o : Offer) : WithTop ℚ :=
  match o.total with
  | some q => (q : WithTop ℚ)
  | none => ⊤

/-- The fold underlying Python's `min(candidates, key=price_of)`: keep the
current best, replace it when a later element's key is strictly smaller. -/
def pickMin (b : Offer) (l : List Offer) : Offer :=
  l.foldl (fun b c => if price_of c < price_of b then c else b) b

/-- Python's `min(candidates, key=price_of)` on a possibly empty list:
the first element attaining the minimal key, `none` on `[]`. -/
def minByPrice : List Offer → Option Offer
  | [] => none
  | o :: os => some (pickMin o os)

/-- Tagging of the running best offer (source lines 177-179):
`best_offer["_route_summary"] = f"{ORIGEN}→{DESTINO}"` and, in round-trip
mode, `best_offer["_nights"] = cheapest.get("_nights")` where `cheapest`
is the same record, so the nights tag is rewritten to itself. -/
def tagBest (route : String) (o : Offer) : Offer :=
  { o with routeSummary := some route, nights := o.nights }

/-- One iteration of the date loop (source lines 165-179): skip an empty
candidate list, otherwise take the per-date stable minimum and replace the
running best when strictly cheaper (`best_offer is None` or
`price_of(cheapest) < price_of(best_offer)`). -/
def stepBest (route : String) (best : Option Offer) (cands : List Offer) : Option Offer :=
  match minByPrice cands with
  | none => best
  | some cheapest =>
    match best with
    | none => some (tagBest route cheapest)
    | some b => if price_of cheapest < price_of b then some (tagBest route cheapest) else best

/-- The reduction performed by `buscar_mejor_precio_amadeus` (lines 129-181)
over the per-date candidate lists `daily` (dates ascending; within a date the
candidates are accumulated nights-ascending). -/
def buscar_mejor_precio (route : String) (daily : List (List Offer)) : Option Offer :=
  daily.foldl (stepBest route) none

/-! ### The date window enumerator (`daterange`, lines 69-75) -/

/-- `daterange` (source lines 69-75): yield consecutive day ordinals from
`d1` while `d1 <= d2`. -/
def daterange (d1 d2 : ℤ) : List ℤ :=
  if d1 ≤ d2 then d1 :: daterange (d1 + 1) d2 else []
termination_by (d2 + 1 - d1).toNat
decreasing_by omega

/-- The departure dates actually consumed by the loop at source lines
132-135, which breaks once `count_days` reaches the cap. -/
def scannedDates (d1 d2 : ℤ) (cap : ℕ) : List ℤ :=
  (daterange d1 d2).take cap

/-! ### Persisted state, alert reasons and the alert decision engine
(`main`, lines 214-240) -/

/-- The persisted state dictionary `price_state.json`; each field is absent
(`none`) until first written. -/
structure PriceState where
  min_price : Option ℚ
  min_when : Option String
  min_route : Option String
deriving DecidableEq

/-- The empty dictionary returned by `load_state` when no state file
exists. -/
def emptyState : PriceState := ⟨none, none, none⟩

/-- The alert reasons appended to `motivos`, with their numeric payloads. -/
inductive Motivo where
  | primerPrecio : Motivo
  | nuevoMinimo : ℚ → Motivo
  | baja : ℚ → Motivo
  | precioObjetivo : Motivo
deriving DecidableEq

/-- Kernel-computable floor of a rational (`Int.ediv` of numerator by
denominator floors because the denominator is positive). -/
def ratFloor (q : ℚ) : ℤ :=
  q.num / (q.den : ℤ)

/-- Python's `round` to an integer: round-half-to-even. -/
def roundHalfEven (q : ℚ) : ℤ :=
  let f := ratFloor q
  let r := q - f
  if r < 1 / 2 then f
  else if 1 / 2 < r then f + 1
  else if f % 2 = 0 then f else f + 1

/-- Python's `round(x, 2)`. -/
def round2 (q : ℚ) : ℚ :=
  (roundHalfEven (q * 100) : ℚ) / 100

/-- The outcome of one run of the decision block: the `debe_alertar` flag,
the `motivos` list, and the state dictionary as it stands when
`save_state` writes it back. -/
structure Decision where
  debe_alertar : Bool
  motivos : List Motivo
  state : PriceState
deriving DecidableEq

/-- The alert decision engine, source lines 214-238: compare `total_price`
with the stored `min_price`, update the minimum when first-or-lower,
otherwise test the percentage drop against `BAJA_MINIMA_PCT`; independently
test the target price.  `route_sum` and `now` are the values stored with a
new minimum.  Caveat: when a prior minimum of exactly 0 is stored, the
source raises `ZeroDivisionError` at line 224 or 231, while the ℚ division
here yields `drop_pct = 0`; that abort (which matters for what `main`
persists) is modelled in `mainRun`, which refuses to run the decision on a
zero stored minimum. -/
def engine (state : PriceState) (total_price : ℚ) (route_sum now : String)
    (objetivo baja_minima : ℚ) : Decision :=
  let prev_min := state.min_price
  let step1 : List Motivo × PriceState × Bool :=
    match prev_min with
    | none =>
      ([Motivo.primerPrecio],
       { state with min_price := some total_price, min_when := some now,
                    min_route := some route_sum }, true)
    | some pm =>
      if total_price < pm then
        let drop_pct := round2 ((pm - total_price) * 100 / pm)
        ([Motivo.nuevoMinimo drop_pct],
         { state with min_price := some total_price, min_when := some now,
                      min_route := some route_sum }, true)
      else
        let drop_pct := round2 ((pm - total_price) * 100 / pm)
        if baja_minima ≤ drop_pct then ([Motivo.baja drop_pct], state, true)
        else ([], state, false)
  let motivos1 := step1.1
  let state1 := step1.2.1
  let alert1 := step1.2.2
  if total_price ≤ objetivo then
    ⟨true, motivos1 ++ [Motivo.precioObjetivo], state1⟩
  else
    ⟨alert1, motivos1, state1⟩

/-- A sequence of runs of the engine: each run sees the state the previous
run wrote back, and supplies its own current price, route summary and
timestamp. -/
def runAll (objetivo baja_minima : ℚ) (s : PriceState)
    (runs : List (ℚ × String × String)) : PriceState :=
  runs.foldl (fun st r => (engine st r.1 r.2.1 r.2.2 objetivo baja_minima).state) s

/-! ### The observable effects of one `main` run (lines 183-256) -/

/-- What one run of `main` does to the outside world, as far as the claims
observe it: whether the state file was read, what was written to it
(`none` = left untouched), whether a notification was sent, and the alert
decision. -/
structure MainOutcome where
  state_read : Bool
  state_written : Option PriceState
  notified : Bool
  debe_alertar : Bool
deriving DecidableEq

/-- One run of `main` after the offer search returned `offer` and with
`disk` the current content of the state file (`none` = no file).  Two abort
paths are modelled: the `float(offer["price"]["total"])` conversion at line
200 raises on a malformed price, and when a prior minimum of exactly 0 is
stored the decision block raises `ZeroDivisionError` at line 224 (if the
current price is below it) or line 231 (otherwise); either abort ends the
run (`Except.error`) before `save_state` at line 240, leaving the state
file untouched. -/
def mainRun (offer : Option Offer) (disk : Option PriceState) (now : String)
    (objetivo baja_minima : ℚ) : Except Unit MainOutcome :=
  match offer with
  | none => Except.ok ⟨false, none, false, false⟩
  | some o =>
    match o.total with
    | none => Except.error ()
    | some total_price =>
      let route_sum := o.routeSummary.getD (ORIGEN ++ "→" ++ DESTINO)
      let state := disk.getD emptyState
      if state.min_price = some 0 then Except.error ()
      else
        let d := engine state total_price route_sum now objetivo baja_minima
        Except.ok ⟨true, some d.state, d.debe_alertar, d.debe_alertar⟩

/-! ### Lemmas about the cheapest-offer selection -/

theorem price_of_tagBest (route : String) (o : Offer) :
    price_of (tagBest route o) = price_of o :=
  rfl

theorem pickMin_append (b : Offer) (l1 l2 : List Offer) :
    pickMin b (l1 ++ l2) = pickMin (pickMin b l1) l2 :=
  List.foldl_append ..

theorem pickMin_le (l : List Offer) : ∀ b : Offer,
    price_of (pickMin b l) ≤ price_of b ∧
    ∀ o ∈ l, price_of (pickMin b l) ≤ price_of o := by
  induction l with
  | nil => intro b; exact ⟨le_rfl, by simp⟩
  | cons c cs ih =>
    intro b
    have key : pickMin b (c :: cs) = pickMin (if price_of c < price_of b then c else b) cs := rfl
    rw [key]
    rcases ih (if price_of c < price_of b then c else b) with ⟨h1, h2⟩
    constructor
    · refine le_trans h1 ?_
      split
      next h => exact le_of_lt h
      next h => exact le_rfl
    · intro o ho
      rcases List.mem_cons.mp ho with rfl | ho
      · refine le_trans h1 ?_
        split
        next h => exact le_rfl
        next h => exact le_of_not_lt h
      · exact h2 o ho

theorem pickMin_cons_out (cs : List Offer) : ∀ b c : Offer,
    pickMin b (c :: cs) =
      if price_of (pickMin c cs) < price_of b then pickMin c cs else b := by
  induction cs with
  | nil =>
    intro b c
    simp [pickMin]
  | cons d ds ih =>
    intro b c
    have key : pickMin b (c :: d :: ds) = pickMin (if price_of c < price_of b then c else b) (d :: ds) := rfl
    rw [key]
    by_cases hcb : price_of c < price_of b
    · rw [if_pos hcb, if_pos (lt_of_le_of_lt (pickMin_le (d :: ds) c).1 hcb)]
    · rw [if_neg hcb, ih b d, ih c d]
      by_cases hPc : price_of (pickMin d ds) < price_of c
      · rw [if_pos hPc]
      · rw [if_neg hPc, if_neg hcb,
            if_neg (fun h : price_of (pickMin d ds) < price_of b =>
              hcb (lt_of_le_of_lt (le_of_not_lt hPc) h))]

theorem pickMin_first (l : List Offer) : ∀ b : Offer,
    ∃ l1 l2, b :: l = l1 ++ pickMin b l :: l2 ∧
      ∀ x ∈ l1, price_of (pickMin b l) < price_of x := by
  induction l with
  | nil =>
    intro b
    exact ⟨[], [], rfl, by simp⟩
  | cons c cs ih =>
    intro b
    rw [pickMin_cons_out]
    split
    next h =>
      rcases ih c with ⟨l1, l2, hdec, hlt⟩
      refine ⟨b :: l1, l2, by rw [List.cons_append, hdec], ?_⟩
      intro x hx
      rcases List.mem_cons.mp hx with rfl | hx
      · exact h
      · exact hlt x hx
    next h =>
      refine ⟨[], c :: cs, rfl, by simp⟩

theorem stepBest_min (route : String) (l0 cands : List Offer) :
    stepBest route (Option.map (tagBest route) (minByPrice l0)) cands =
      Option.map (tagBest route) (minByPrice (l0 ++ cands)) := by
  match cands with
  | [] =>
    match l0 with
    | [] => rfl
    | x :: xs => simp [stepBest, minByPrice]
  | c :: cs =>
    match l0 with
    | [] => rfl
    | x :: xs =>
      show stepBest route (some (tagBest route (pickMin x xs))) (c :: cs) = _
      have hr : minByPrice ((x :: xs) ++ c :: cs) = some (pickMin (pickMin x xs) (c :: cs)) := by
        show minByPrice (x :: (xs ++ c :: cs)) = _
        rw [minByPrice, pickMin_append]
      rw [hr, pickMin_cons_out]
      show (if price_of (pickMin c cs) < price_of (tagBest route (pickMin x xs))
              then some (tagBest route (pickMin c cs))
              else some (tagBest route (pickMin x xs))) = _
      rw [price_of_tagBest]
      split <;> rfl

theorem buscar_foldl (route : String) (daily : List (List Offer)) : ∀ l0 : List Offer,
    daily.foldl (stepBest route) (Option.map (tagBest route) (minByPrice l0)) =
      Option.map (tagBest route) (minByPrice (l0 ++ daily.flatten)) := by
  induction daily with
  | nil => intro l0; simp
  | cons cands rest ih =>
    intro l0
    rw [List.foldl_cons, stepBest_min, ih, List.flatten_cons, List.append_assoc]

theorem buscar_eq_minByPrice (route : String) (daily : List (List Offer)) :
    buscar_mejor_precio route daily =
      Option.map (tagBest route) (minByPrice daily.flatten) := by
  have h := buscar_foldl route daily []
  simpa [buscar_mejor_precio, minByPrice] using h

/-! ### Lemmas about the date window enumerator -/

theorem daterange_unfold (d1 d2 : ℤ) :
    daterange d1 d2 = if d1 ≤ d2 then d1 :: daterange (d1 + 1) d2 else [] := by
  rw [daterange]

theorem daterange_of_lt {d1 d2 : ℤ} (h : d2 < d1) : daterange d1 d2 = [] := by
  rw [daterange_unfold, if_neg (by omega)]

theorem daterange_head {d1 d2 : ℤ} (h : d1 ≤ d2) :
    (daterange d1 d2).head? = some d1 := by
  rw [daterange_unfold, if_pos h]
  rfl

theorem daterange_mem (d2 : ℤ) : ∀ n (d1 : ℤ), (d2 + 1 - d1).toNat ≤ n →
    ∀ x ∈ daterange d1 d2, d1 ≤ x ∧ x ≤ d2 := by
  intro n
  induction n with
  | zero =>
    intro d1 hn x hx
    rw [daterange_of_lt (by omega)] at hx
    cases hx
  | succ n ih =>
    intro d1 hn
    rw [daterange_unfold]
    split
    next h =>
      intro x hx
      rcases List.mem_cons.mp hx with rfl | hx
      · omega
      · have := ih (d1 + 1) (by omega) x hx
        omega
    next h =>
      intro x hx
      cases hx

theorem daterange_chain (d2 : ℤ) : ∀ n (d1 : ℤ), (d2 + 1 - d1).toNat ≤ n →
    List.Chain' (fun a b => b = a + 1) (daterange d1 d2) := by
  intro n
  induction n with
  | zero =>
    intro d1 hn
    rw [daterange_of_lt (by omega)]
    exact List.chain'_nil
  | succ n ih =>
    intro d1 hn
    rw [daterange_unfold]
    split
    next h =>
      rw [List.chain'_cons']
      refine ⟨?_, ih (d1 + 1) (by omega)⟩
      intro y hy
      by_cases h2 : d1 + 1 ≤ d2
      · rw [daterange_head h2] at hy
        simp only [Option.mem_def, Option.some.injEq] at hy
        omega
      · rw [daterange_of_lt (by omega)] at hy
        cases hy
    next h =>
      exact List.chain'_nil

theorem take_head {α : Type} (l : List α) (cap : ℕ) (h : 0 < cap) :
    (l.take cap).head? = l.head? := by
  cases cap with
  | zero => omega
  | succ n => cases l <;> rfl

/-! ### Lemmas about the alert decision engine -/

theorem engine_state (s : PriceState) (t : ℚ) (r n : String) (obj baja : ℚ) :
    (engine s t r n obj baja).state =
      match s.min_price with
      | none => { s with min_price := some t, min_when := some n, min_route := some r }
      | some pm =>
        if t < pm then { s with min_price := some t, min_when := some n, min_route := some r }
        else s := by
  unfold engine
  match s.min_price with
  | none => split <;> rfl
  | some pm =>
    by_cases h : t < pm
    · simp only [if_pos h]
      split <;> rfl
    · simp only [if_neg h]
      split <;> [skip; skip] <;> (split <;> rfl)

theorem engine_min_le (s : PriceState) (t : ℚ) (r n : String) (obj baja : ℚ) (p : ℚ)
    (h : s.min_price = some p) :
    ∃ q, (engine s t r n obj baja).state.min_price = some q ∧ q ≤ p := by
  rw [engine_state, h]
  by_cases ht : t < p
  · exact ⟨t, by simp [ht], le_of_lt ht⟩
  · exact ⟨p, by simp [ht, h], le_rfl⟩

theorem ratFloor_eq_floor (q : ℚ) : ratFloor q = ⌊q⌋ := by
  rw [Rat.floor_def]
  rfl

theorem roundHalfEven_nonpos {x : ℚ} (hx : x ≤ 0) : roundHalfEven x ≤ 0 := by
  have hfl : ⌊x⌋ ≤ 0 := Int.floor_nonpos hx
  have hkey : ¬ x - (⌊x⌋ : ℚ) < 1 / 2 → ⌊x⌋ + 1 ≤ 0 := by
    intro hr
    have h1 : (⌊x⌋ : ℚ) < x := by
      have := le_of_not_lt hr
      linarith
    have h2 : (⌊x⌋ : ℚ) < 0 := lt_of_lt_of_le h1 hx
    have h3 : ⌊x⌋ < 0 := by exact_mod_cast h2
    omega
  simp only [roundHalfEven, ratFloor_eq_floor]
  split_ifs with h1 h2 h3
  · exact hfl
  · exact hkey h1
  · exact hfl
  · exact hkey h1

theorem round2_nonpos {q : ℚ} (h : q ≤ 0) : round2 q ≤ 0 := by
  have h100 : q * 100 ≤ 0 := by nlinarith
  have hle : roundHalfEven (q * 100) ≤ 0 := roundHalfEven_nonpos h100
  have hc : (roundHalfEven (q * 100) : ℚ) ≤ 0 := by exact_mod_cast hle
  unfold round2
  linarith

theorem engine_state_fixed (s : PriceState) (t : ℚ) (r n : String) (obj baja : ℚ)
    (h : (engine s t r n obj baja).state.min_price = s.min_price) :
    (engine s t r n obj baja).state = s := by
  rw [engine_state] at h ⊢
  rcases hs : s.min_price with _ | pm
  · simp only [hs] at h
    cases h
  · simp only [hs] at h ⊢
    by_cases ht : t < pm
    · rw [if_pos ht] at h
      simp only [Option.some.injEq] at h
      exact absurd ht (by rw [h]; exact lt_irrefl pm)
    · rw [if_neg ht]

theorem engine_eq_none (s : PriceState) (t : ℚ) (r n : String) (obj baja : ℚ)
    (h : s.min_price = none) :
    engine s t r n obj baja =
      if t ≤ obj then
        ⟨true, [Motivo.primerPrecio, Motivo.precioObjetivo],
          { s with min_price := some t, min_when := some n, min_route := some r }⟩
      else
        ⟨true, [Motivo.primerPrecio],
          { s with min_price := some t, min_when := some n, min_route := some r }⟩ := by
  simp only [engine, h]
  split_ifs <;> rfl

theorem engine_eq_lt (s : PriceState) (t : ℚ) (r n : String) (obj baja pm : ℚ)
    (h : s.min_price = some pm) (hlt : t < pm) :
    engine s t r n obj baja =
      if t ≤ obj then
        ⟨true, [Motivo.nuevoMinimo (round2 ((pm - t) * 100 / pm)), Motivo.precioObjetivo],
          { s with min_price := some t, min_when := some n, min_route := some r }⟩
      else
        ⟨true, [Motivo.nuevoMinimo (round2 ((pm - t) * 100 / pm))],
          { s with min_price := some t, min_when := some n, min_route := some r }⟩ := by
  simp only [engine, h, if_pos hlt]
  split_ifs <;> rfl

theorem engine_eq_ge_drop (s : PriceState) (t : ℚ) (r n : String) (obj baja pm : ℚ)
    (h : s.min_price = some pm) (hge : ¬ t < pm)
    (hdrop : baja ≤ round2 ((pm - t) * 100 / pm)) :
    engine s t r n obj baja =
      if t ≤ obj then
        ⟨true, [Motivo.baja (round2 ((pm - t) * 100 / pm)), Motivo.precioObjetivo], s⟩
      else
        ⟨true, [Motivo.baja (round2 ((pm - t) * 100 / pm))], s⟩ := by
  simp only [engine, h, if_neg hge, if_pos hdrop]
  split_ifs <;> rfl

theorem engine_eq_ge_nodrop (s : PriceState) (t : ℚ) (r n : String) (obj baja pm : ℚ)
    (h : s.min_price = some pm) (hge : ¬ t < pm)
    (hdrop : ¬ baja ≤ round2 ((pm - t) * 100 / pm)) :
    engine s t r n obj baja =
      if t ≤ obj then ⟨true, [Motivo.precioObjetivo], s⟩ else ⟨false, [], s⟩ := by
  simp only [engine, h, if_neg hge, if_neg hdrop]
  split_ifs <;> rfl

/-! ### The claims -/

/-- C1: over every family of per-date candidate lists (the candidate offers
accumulated across the window, dates ascending and nights ascending within a
date), the reduction of `buscar_mejor_precio_amadeus` returns an offer whose
price is ≤ every candidate's price; the returned offer is the first-seen
offer attaining that minimum (every earlier candidate is strictly more
expensive); and on an empty candidate set it returns `none` rather than an
error. -/
theorem selector_min_spec (route : String) (daily : List (List Offer)) :
    (buscar_mejor_precio route daily = none ↔ daily.flatten = []) ∧
    ∀ b, buscar_mejor_precio route daily = some b →
      (∀ o ∈ daily.flatten, price_of b ≤ price_of o) ∧
      ∃ l1 o l2, daily.flatten = l1 ++ o :: l2 ∧ b = tagBest route o ∧
        ∀ x ∈ l1, price_of o < price_of x := by
  rw [buscar_eq_minByPrice]
  constructor
  · cases hf : daily.flatten with
    | nil => simp [minByPrice]
    | cons c cs => simp [minByPrice]
  · intro b hb
    cases hf : daily.flatten with
    | nil =>
      rw [hf] at hb
      cases hb
    | cons c cs =>
      rw [hf] at hb
      have hb2 : tagBest route (pickMin c cs) = b := Option.some.inj hb
      constructor
      · intro o ho
        rw [← hb2, price_of_tagBest]
        rcases List.mem_cons.mp ho with h0 | h0
        · rw [h0]
          exact (pickMin_le cs c).1
        · exact (pickMin_le cs c).2 o h0
      · rcases pickMin_first cs c with ⟨l1, l2, hdec, hlt⟩
        exact ⟨l1, pickMin c cs, l2, hdec, hb2.symm, hlt⟩

/-- C1 witness: a concrete window with a tie between two offers priced 7;
the selected offer is the first-seen one. -/
theorem selector_min_spec_witness :
    (∀ o ∈ ([[(⟨some 9, none, none⟩ : Offer), ⟨some 7, none, none⟩],
        [⟨some 7, none, none⟩]] : List (List Offer)).flatten,
      price_of (⟨some 7, none, some "EZE→MAD"⟩ : Offer) ≤ price_of o) ∧
    ∃ l1 o l2,
      ([[(⟨some 9, none, none⟩ : Offer), ⟨some 7, none, none⟩],
        [⟨some 7, none, none⟩]] : List (List Offer)).flatten = l1 ++ o :: l2 ∧
      (⟨some 7, none, some "EZE→MAD"⟩ : Offer) = tagBest "EZE→MAD" o ∧
      ∀ x ∈ l1, price_of o < price_of x :=
  (selector_min_spec "EZE→MAD"
      [[⟨some 9, none, none⟩, ⟨some 7, none, none⟩], [⟨some 7, none, none⟩]]).2
    ⟨some 7, none, some "EZE→MAD"⟩ rfl

/-- C2: with prior minimum 650, current price 600 and target 600 (the
configured `PRECIO_OBJETIVO`), the engine alerts with both the new-minimum
reason (drop `round((650-600)*100/650, 2) = 7.69`) and the at-or-below-target
reason, and stores 600 as the new minimum: the two reasons are additive. -/
theorem alert_scenario_650_600 :
    (engine ⟨some 650, none, none⟩ 600 "EZE→MAD" "ts" PRECIO_OBJETIVO BAJA_MINIMA_PCT).debe_alertar
        = true ∧
    (engine ⟨some 650, none, none⟩ 600 "EZE→MAD" "ts" PRECIO_OBJETIVO BAJA_MINIMA_PCT).motivos
        = [Motivo.nuevoMinimo 7.69, Motivo.precioObjetivo] ∧
    (engine ⟨some 650, none, none⟩ 600 "EZE→MAD" "ts" PRECIO_OBJETIVO BAJA_MINIMA_PCT).state.min_price
        = some 600 := by
  norm_num [engine, round2, roundHalfEven, ratFloor, PRECIO_OBJETIVO, BAJA_MINIMA_PCT]

/-- C3: across any sequence of runs of the engine, the stored minimum price
never increases: whenever a minimum `p` is stored, after any further runs the
stored minimum is some `q ≤ p`. -/
theorem stored_min_monotone (obj baja : ℚ) (runs : List (ℚ × String × String)) :
    ∀ (s : PriceState) (p : ℚ), s.min_price = some p →
      ∃ q, (runAll obj baja s runs).min_price = some q ∧ q ≤ p := by
  induction runs with
  | nil =>
    intro s p h
    exact ⟨p, h, le_rfl⟩
  | cons run rest ih =>
    intro s p h
    rcases engine_min_le s run.1 run.2.1 run.2.2 obj baja p h with ⟨q1, hq1, hle1⟩
    have hstep : runAll obj baja s (run :: rest) =
        runAll obj baja (engine s run.1 run.2.1 run.2.2 obj baja).state rest := rfl
    rw [hstep]
    rcases ih _ q1 hq1 with ⟨q, hq, hle⟩
    exact ⟨q, hq, le_trans hle hle1⟩

/-- C3 witness: starting from a stored minimum of 650, two runs at prices
600 then 700 leave a stored minimum ≤ 650. -/
theorem stored_min_monotone_witness :
    ∃ q, (runAll 600 8 ⟨some 650, none, none⟩
        [(600, "EZE→MAD", "t1"), (700, "EZE→MAD", "t2")]).min_price = some q ∧ q ≤ 650 :=
  stored_min_monotone 600 8 [(600, "EZE→MAD", "t1"), (700, "EZE→MAD", "t2")]
    ⟨some 650, none, none⟩ 650 rfl

/-- C4: when a run leaves the stored minimum unchanged, running the engine
again with the same current price yields the identical decision (same flag,
same reasons, same state), and the second run does not change the stored
minimum. -/
theorem engine_idempotent (s : PriceState) (t : ℚ) (r n : String) (obj baja : ℚ)
    (h : (engine s t r n obj baja).state.min_price = s.min_price) :
    engine (engine s t r n obj baja).state t r n obj baja = engine s t r n obj baja ∧
    (engine (engine s t r n obj baja).state t r n obj baja).state.min_price =
      (engine s t r n obj baja).state.min_price := by
  rw [engine_state_fixed s t r n obj baja h]
  exact ⟨rfl, h⟩

/-- C4 witness: prior minimum 500, current price 520 — the first run keeps
the minimum, so a second identical run repeats the decision exactly. -/
theorem engine_idempotent_witness :
    engine (engine ⟨some 500, none, none⟩ 520 "EZE→MAD" "ts" 600 8).state 520 "EZE→MAD" "ts" 600 8
        = engine ⟨some 500, none, none⟩ 520 "EZE→MAD" "ts" 600 8 ∧
    (engine (engine ⟨some 500, none, none⟩ 520 "EZE→MAD" "ts" 600 8).state
        520 "EZE→MAD" "ts" 600 8).state.min_price =
      (engine ⟨some 500, none, none⟩ 520 "EZE→MAD" "ts" 600 8).state.min_price :=
  engine_idempotent ⟨some 500, none, none⟩ 520 "EZE→MAD" "ts" 600 8
    (by rw [engine_state]; simp +decide)

/-- C5 counterexample: with a negative stored minimum the claim fails on the
code: prior minimum −10, current −5 ≥ −10, drop threshold 8 > 0, yet the
formula `round((−10 −(−5))·100/−10, 2) = 50` is positive, the case-4 branch
adds the drop-based reason `Baja de 50%` and raises the alert. -/
theorem case4_drop_reason_cex :
    Motivo.baja 50 ∈ (engine ⟨some (-10), none, none⟩ (-5) "r" "ts" (-100) 8).motivos ∧
    (engine ⟨some (-10), none, none⟩ (-5) "r" "ts" (-100) 8).debe_alertar = true ∧
    ¬ round2 ((-10 - (-5)) * 100 / (-10)) ≤ 0 := by
  norm_num [engine, round2, roundHalfEven, ratFloor]

/-- C5 (amended with a positive prior minimum): when a prior minimum
`pm > 0` is stored, the current price is ≥ it and the drop threshold is
positive, the case-4 branch is a no-op: the evaluated drop formula is ≤ 0,
no drop-based reason is ever added, and the state is unchanged. -/
theorem case4_noop_of_pos_min (pm t obj baja : ℚ) (mw mr : Option String) (r n : String)
    (hpm : 0 < pm) (ht : pm ≤ t) (hb : 0 < baja) :
    round2 ((pm - t) * 100 / pm) ≤ 0 ∧
    (∀ x : ℚ, Motivo.baja x ∉ (engine ⟨some pm, mw, mr⟩ t r n obj baja).motivos) ∧
    (engine ⟨some pm, mw, mr⟩ t r n obj baja).state = ⟨some pm, mw, mr⟩ := by
  have hdrop : round2 ((pm - t) * 100 / pm) ≤ 0 := by
    apply round2_nonpos
    apply div_nonpos_iff.mpr
    exact Or.inr ⟨by nlinarith, le_of_lt hpm⟩
  have hge : ¬ t < pm := not_lt.mpr ht
  have hnb : ¬ baja ≤ round2 ((pm - t) * 100 / pm) := not_le.mpr (lt_of_le_of_lt hdrop hb)
  rw [engine_eq_ge_nodrop ⟨some pm, mw, mr⟩ t r n obj baja pm rfl hge hnb]
  refine ⟨hdrop, ?_, ?_⟩
  · intro x
    split_ifs <;> simp
  · split_ifs <;> rfl

/-- C5 witness: the spec's own scenario, prior minimum 500, current 520,
drop threshold 8. -/
theorem case4_noop_of_pos_min_witness :
    round2 ((500 - 520) * 100 / 500) ≤ 0 ∧
    (∀ x : ℚ, Motivo.baja x ∉ (engine ⟨some 500, none, none⟩ 520 "r" "ts" 600 8).motivos) ∧
    (engine ⟨some 500, none, none⟩ 520 "r" "ts" 600 8).state = ⟨some 500, none, none⟩ :=
  case4_noop_of_pos_min 500 520 600 8 none none "r" "ts" (by decide) (by decide) (by decide)

/-- C6: for a valid window and a positive cap, the dates consumed by the
search loop start at the window start, advance by exactly one day (hence are
strictly ascending), stay inside the inclusive window, and number at most
the cap. -/
theorem daterange_window_spec (d1 d2 : ℤ) (cap : ℕ) (h : d1 ≤ d2) (hcap : 0 < cap) :
    (scannedDates d1 d2 cap).head? = some d1 ∧
    List.Chain' (fun a b => b = a + 1) (scannedDates d1 d2 cap) ∧
    List.Chain' (fun a b : ℤ => a < b) (scannedDates d1 d2 cap) ∧
    (∀ x ∈ scannedDates d1 d2 cap, d1 ≤ x ∧ x ≤ d2) ∧
    (scannedDates d1 d2 cap).length ≤ cap := by
  have hchain := daterange_chain d2 (d2 + 1 - d1).toNat d1 le_rfl
  have hchaint : List.Chain' (fun a b => b = a + 1) (scannedDates d1 d2 cap) :=
    hchain.take cap
  refine ⟨?_, hchaint, ?_, ?_, ?_⟩
  · rw [scannedDates, take_head _ _ hcap, daterange_head h]
  · exact hchaint.imp (fun a b hab => by omega)
  · intro x hx
    exact daterange_mem d2 (d2 + 1 - d1).toNat d1 le_rfl x (List.mem_of_mem_take hx)
  · exact List.length_take_le cap (daterange d1 d2)

/-- C6 witness: window `[0, 5]` with cap 3. -/
theorem daterange_window_spec_witness :
    (scannedDates 0 5 3).head? = some 0 ∧
    List.Chain' (fun a b => b = a + 1) (scannedDates 0 5 3) ∧
    List.Chain' (fun a b : ℤ => a < b) (scannedDates 0 5 3) ∧
    (∀ x ∈ scannedDates 0 5 3, 0 ≤ x ∧ x ≤ 5) ∧
    (scannedDates 0 5 3).length ≤ 3 :=
  daterange_window_spec 0 5 3 (by decide) (by decide)

/-- C7 counterexample: for the inverted window start = 5, end = 3 the
enumerator yields the empty sequence — it does not fail with an
`InvalidWindow` error (the source has no such check: the `while d1 <= d2`
loop simply yields nothing). -/
theorem daterange_inverted_cex : daterange 5 3 = [] := by
  simp [daterange]

/-- C7 (amended): for every window whose start is strictly after its end,
the enumerator yields the empty sequence, not an error. -/
theorem daterange_inverted_empty (d1 d2 : ℤ) (h : d2 < d1) : daterange d1 d2 = [] :=
  daterange_of_lt h

/-- C7 witness: the inverted window start = 7, end = 2. -/
theorem daterange_inverted_empty_witness : daterange 7 2 = [] :=
  daterange_inverted_empty 7 2 (by decide)

/-- C8 counterexample: when every candidate is malformed, the malformed
offer IS selected (with price `⊤`), and a parsed price may be negative —
so the selected best offer need not have a non-negative finite price. -/
theorem malformed_selected_cex :
    buscar_mejor_precio "EZE→MAD" [[⟨none, none, none⟩]]
        = some ⟨none, none, some "EZE→MAD"⟩ ∧
    price_of ⟨none, none, some "EZE→MAD"⟩ = ⊤ ∧
    buscar_mejor_precio "EZE→MAD" [[⟨some (-5), none, none⟩]]
        = some ⟨some (-5), none, some "EZE→MAD"⟩ ∧
    price_of ⟨some (-5), none, some "EZE→MAD"⟩ < 0 := by
  refine ⟨rfl, rfl, rfl, ?_⟩
  show ((-5 : ℚ) : WithTop ℚ) < ((0 : ℚ) : WithTop ℚ)
  exact WithTop.coe_lt_coe.mpr (by norm_num)

/-- C8 (amended): `price_of` is a total valuation mapping parse-failure to
the sentinel `⊤`; whenever at least one candidate has a parseable (finite)
price, the selected best offer has a finite parsed price that is ≤ every
candidate's price — in particular a malformed offer is never selected in
that case (finiteness, not non-negativity, is what holds). -/
theorem malformed_sentinel (route : String) (daily : List (List Offer))
    (h : ∃ o ∈ daily.flatten, price_of o ≠ ⊤) :
    ∃ b, buscar_mejor_precio route daily = some b ∧ price_of b ≠ ⊤ ∧
      ∀ o ∈ daily.flatten, price_of b ≤ price_of o := by
  rcases h with ⟨o0, ho0, hfin⟩
  cases hf : daily.flatten with
  | nil =>
    rw [hf] at ho0
    cases ho0
  | cons c cs =>
    rw [buscar_eq_minByPrice, hf]
    refine ⟨tagBest route (pickMin c cs), rfl, ?_, ?_⟩
    · rw [price_of_tagBest]
      intro htop
      have hle : price_of (pickMin c cs) ≤ price_of o0 := by
        rw [hf] at ho0
        rcases List.mem_cons.mp ho0 with h0 | h0
        · rw [h0]
          exact (pickMin_le cs c).1
        · exact (pickMin_le cs c).2 o0 h0
      rw [htop] at hle
      exact hfin (top_le_iff.mp hle)
    · intro o ho
      rw [price_of_tagBest]
      rcases List.mem_cons.mp ho with h0 | h0
      · rw [h0]
        exact (pickMin_le cs c).1
      · exact (pickMin_le cs c).2 o h0

/-- C8 witness: one malformed and one well-formed candidate; the selected
offer has the finite price 5. -/
theorem malformed_sentinel_witness :
    ∃ b, buscar_mejor_precio "EZE→MAD"
        [[⟨none, none, none⟩, ⟨some 5, none, none⟩]] = some b ∧
      price_of b ≠ ⊤ ∧
      ∀ o ∈ ([[(⟨none, none, none⟩ : Offer), ⟨some 5, none, none⟩]] :
          List (List Offer)).flatten, price_of b ≤ price_of o :=
  malformed_sentinel "EZE→MAD" [[⟨none, none, none⟩, ⟨some 5, none, none⟩]]
    ⟨⟨some 5, none, none⟩, by decide, by decide⟩

/-- C9 counterexample: a run that selects an offer whose price does not
parse aborts at `float(offer["price"]["total"])` before the decision, so
the state store is NOT written back even though an offer was selected; and
a run with a parseable price but a stored minimum of exactly 0 (reachable:
a first run on a "0.00"-priced offer persists it via the no-division
first-price branch) aborts with `ZeroDivisionError` at line 231, likewise
writing nothing. -/
theorem main_unparsable_cex :
    mainRun (some ⟨none, none, none⟩) (some ⟨some 650, none, none⟩) "ts" 600 8
        = Except.error () ∧
    mainRun (some ⟨some 700, none, none⟩) (some ⟨some 0, none, none⟩) "ts" 600 8
        = Except.error () :=
  ⟨rfl, rfl⟩

/-- C9 (amended): in every run where an offer with a parseable price is
selected and the stored prior minimum is not exactly zero (a zero stored
minimum makes the decision block divide by zero and abort before the
write), the state file is read and then written back with the engine's
state regardless of whether the alert fires (a notification is attempted
exactly when it does); in the no-offer case the run ends with decision
"no alert", the state file is neither read nor written and no notification
is sent. -/
theorem main_frame_spec (offer : Option Offer) (disk : Option PriceState) (now : String)
    (obj baja : ℚ) (o : Offer) (q : ℚ) (ho : offer = some o) (hq : o.total = some q)
    (hz : (disk.getD emptyState).min_price ≠ some 0) :
    mainRun none disk now obj baja = Except.ok ⟨false, none, false, false⟩ ∧
    ∃ out, mainRun offer disk now obj baja = Except.ok out ∧
      out.state_written = some (engine (disk.getD emptyState) q
        (o.routeSummary.getD (ORIGEN ++ "→" ++ DESTINO)) now obj baja).state ∧
      out.state_read = true ∧
      out.notified = out.debe_alertar := by
  subst ho
  refine ⟨rfl, ?_⟩
  simp only [mainRun, hq, if_neg hz]
  exact ⟨_, rfl, rfl, rfl, rfl⟩

/-- C9 witness: a run with a parseable offer at price 700 and a stored
minimum of 650. -/
theorem main_frame_spec_witness :
    mainRun none (some ⟨some 650, none, none⟩) "ts" 600 8
        = Except.ok ⟨false, none, false, false⟩ ∧
    ∃ out, mainRun (some ⟨some 700, none, none⟩) (some ⟨some 650, none, none⟩) "ts" 600 8
        = Except.ok out ∧
      out.state_written = some (engine ((some (⟨some 650, none, none⟩ : PriceState)).getD emptyState)
        700 (((⟨some 700, none, none⟩ : Offer)).routeSummary.getD (ORIGEN ++ "→" ++ DESTINO))
        "ts" 600 8).state ∧
      out.state_read = true ∧
      out.notified = out.debe_alertar :=
  main_frame_spec (some ⟨some 700, none, none⟩) (some ⟨some 650, none, none⟩) "ts" 600 8
    ⟨some 700, none, none⟩ 700 rfl rfl (by decide)

/-- C10: for every input, the engine's alert flag is set iff the reasons
list is non-empty — every branch that raises the flag appends a reason and
no reason is appended without raising the flag. -/
theorem alert_iff_motivos (s : PriceState) (t : ℚ) (r n : String) (obj baja : ℚ) :
    (engine s t r n obj baja).debe_alertar = true ↔ (engine s t r n obj baja).motivos ≠ [] := by
  rcases hs : s.min_price with _ | pm
  · rw [engine_eq_none s t r n obj baja hs]
    split_ifs <;> simp
  · by_cases hlt : t < pm
    · rw [engine_eq_lt s t r n obj baja pm hs hlt]
      split_ifs <;> simp
    · by_cases hdrop : baja ≤ round2 ((pm - t) * 100 / pm)
      · rw [engine_eq_ge_drop s t r n obj baja pm hs hlt hdrop]
        split_ifs <;> simp
      · rw [engine_eq_ge_nodrop s t r n obj baja pm hs hlt hdrop]
        split_ifs <;> simp

end PriceBot
